import Mathlib

/-!
Shallow embedding of the exports-map inference core of the repository
(`src/utils.ts`): export-type inference (`inferExportType`), recursive
export-filename extraction (`extractExportFilenames`) and the exports-map
generator (`generatePackageExports` with its two condition builders).

JavaScript strings are modelled as Lean `String` (a list of characters in
this toolchain); the JavaScript string primitives used by the source
(`endsWith`, `includes`, `split`, `slice`) are modelled by the explicit
character-list helpers below so that every operation is executable and
amenable to proof.
-/

/-- Models JavaScript `s.endsWith(t)`: `t` is a suffix of `s`. -/
def endsWithStr (s t : String) : Bool :=
  t.data.isSuffixOf s.data

/-- `t` occurs as a contiguous run inside `s` (character lists). -/
def isInfixChars (t : List Char) : List Char → Bool
  | [] => t.isEmpty
  | c :: rest => t.isPrefixOf (c :: rest) || isInfixChars t rest

/-- Models JavaScript `s.includes(t)`: `t` occurs as a contiguous substring of `s`. -/
def includesStr (s t : String) : Bool :=
  isInfixChars t.data s.data

/-- Models JavaScript `s.slice(0, -n)` for `n ≤ s.length`: drop the last `n` characters. -/
def dropRightStr (s : String) (n : Nat) : String :=
  ⟨s.data.take (s.data.length - n)⟩

/-- Models JavaScript `s.slice(n)`: drop the first `n` characters. -/
def dropStr (s : String) (n : Nat) : String :=
  ⟨s.data.drop n⟩

/-- Character-level worker for `splitSlash`; `acc` holds the current segment reversed. -/
def splitCharsAux (sep : Char) : List Char → List Char → List (List Char)
  | [], acc => [acc.reverse]
  | c :: rest, acc =>
      if c == sep then acc.reverse :: splitCharsAux sep rest []
      else splitCharsAux sep rest (c :: acc)

/-- Models JavaScript `s.split("/")` (single-character separator, no collapsing). -/
def splitSlash (s : String) : List String :=
  (splitCharsAux '/' s.data []).map fun l => ⟨l⟩

/-- The module format inferred for an export: the `"esm" | "cjs"` result type of the source. -/
inductive ExportType where
  | esm
  | cjs
deriving DecidableEq, Repr

/-- `inferExportType` from `src/utils.ts`: decide `esm`/`cjs` from the filename
suffix first, then the condition name, then by walking the chain of enclosing
condition names; defaults to `esm` on an exhausted chain. -/
def inferExportType (condition : String) (previousConditions : List String)
    (filename : String) : ExportType :=
  if filename != "" && endsWithStr filename ".d.ts" then .esm
  else if filename != "" && endsWithStr filename ".mjs" then .esm
  else if filename != "" && endsWithStr filename ".cjs" then .cjs
  else if condition == "import" then .esm
  else if condition == "require" then .cjs
  else
    match previousConditions with
    | [] => .esm
    | newCondition :: rest => inferExportType newCondition rest filename

/-- The five-step first-match-wins reference definition of export-type
inference, written from the specification's wording: the `filename` is
consulted only through its suffix (the non-emptiness guard appears on the
first step only). -/
def refInferExportType (condition : String) (previousConditions : List String)
    (filename : String) : ExportType :=
  if filename != "" && endsWithStr filename ".d.ts" then .esm
  else if endsWithStr filename ".mjs" then .esm
  else if endsWithStr filename ".cjs" then .cjs
  else if condition == "import" then .esm
  else if condition == "require" then .cjs
  else
    match previousConditions with
    | [] => .esm
    | newCondition :: rest => refInferExportType newCondition rest filename

/-- `OutputDescriptor` from `src/utils.ts`; the `type` field is filled on every
constructed value, so it is modelled as non-optional. -/
structure OutputDescriptor where
  file : String
  type : ExportType
deriving DecidableEq, Repr

mutual
/-- A package manifest `exports` declaration: a plain string or a nested
mapping from condition names to further declarations. -/
inductive Exports where
  | str (s : String)
  | map (entries : ExportsList)

/-- The key/value pairs of a nested `exports` mapping, in iteration order. -/
inductive ExportsList where
  | nil
  | cons (key : String) (value : Exports) (rest : ExportsList)
end

mutual
/-- Processing of one key/value pair of an `exports` mapping by
`extractExportFilenames`: a string value emits one descriptor, a nested
mapping recurses with the condition chain extended by the key. -/
def extractValue (key : String) (conditions : List String) : Exports → List OutputDescriptor
  | .str s => [⟨s, inferExportType key conditions s⟩]
  | .map m => extractEntries (conditions ++ [key]) m

/-- The mapping case of `extractExportFilenames`: keys ending in `.json` are
skipped, results are concatenated in iteration order. -/
def extractEntries (conditions : List String) : ExportsList → List OutputDescriptor
  | .nil => []
  | .cons key value rest =>
      (if endsWithStr key ".json" then [] else extractValue key conditions value)
      ++ extractEntries conditions rest
end

/-- `extractExportFilenames` from `src/utils.ts`. The JavaScript guard
`if (!exports) return []` fires for `undefined` and for the empty string
(both falsy), which is why the string case tests for `""`. -/
def extractExportFilenames (exports : Option Exports) (conditions : List String) :
    List OutputDescriptor :=
  match exports with
  | none => []
  | some (.str s) => if s = "" then [] else [⟨s, .esm⟩]
  | some (.map m) => extractEntries conditions m

mutual
/-- Reference processing of a single key/value pair, from the specification's
wording of the mapping case. -/
def refExtractValue (key : String) (conditions : List String) : Exports → List OutputDescriptor
  | .str s => [⟨s, refInferExportType key conditions s⟩]
  | .map m => refExtractEntries (conditions ++ [key]) m

/-- Reference mapping case: skip `.json` keys, emit strings, recurse into
mappings with the chain extended, concatenating in iteration order. -/
def refExtractEntries (conditions : List String) : ExportsList → List OutputDescriptor
  | .nil => []
  | .cons key value rest =>
      (if endsWithStr key ".json" then [] else refExtractValue key conditions value)
      ++ refExtractEntries conditions rest
end

/-- The extraction behaviour exactly as the claim words it: `undefined` gives
the empty list and a plain string `s` always gives the single entry
`[{file: s, type: esm}]`, with the mapping case from the same wording. -/
def refExtractClaimed (exports : Option Exports) (conditions : List String) :
    List OutputDescriptor :=
  match exports with
  | none => []
  | some (.str s) => [⟨s, .esm⟩]
  | some (.map m) => refExtractEntries conditions m

/-- The claimed extraction amended only where the code forces it: the empty
string (falsy in JavaScript) also yields the empty list. -/
def refExtractAmended (exports : Option Exports) (conditions : List String) :
    List OutputDescriptor :=
  match exports with
  | none => []
  | some (.str s) => if s = "" then [] else [⟨s, .esm⟩]
  | some (.map m) => refExtractEntries conditions m

/-! ## Exports-map generator (`generatePackageExports` and its condition builders) -/

/-- A build output entry: relative path plus the shared-chunk flag. -/
structure BuildEntry where
  path : String
  chunk : Bool
deriving DecidableEq, Repr

/-- The `exportImport` generation mode: `false | true | string[]`. -/
inductive ExportImport where
  | flag (b : Bool)
  | folders (l : List String)
deriving DecidableEq, Repr

/-- The nested value of an `import`/`require` condition key (`types`/`default`
sub-keys, each optional). -/
structure SubCondition where
  types : Option String
  default : Option String
deriving DecidableEq, Repr

/-- The conditional object built per export group. The JavaScript object keys
`types`, `import`, `require` are modelled by the fields `types`, `imp`, `req`
(`import`/`require` are reserved words in Lean); an absent key is `none`. -/
structure ExportConditions where
  types : Option String
  imp : Option SubCondition
  req : Option SubCondition
deriving DecidableEq, Repr

/-- A group's export value: a bare path string (degenerate case) or a
conditional object. -/
inductive ExportValue where
  | str (s : String)
  | cond (c : ExportConditions)
deriving DecidableEq, Repr

/-- `removeExtension` from `src/utils.ts`: the regex
`\.(js|mjs|cjs|ts|mts|cts|json|jsx|tsx)$` strips the final `.ext` when the
text after the last dot is one of the listed extensions. The suffix tests
below are mutually exclusive (no listed extension is a suffix of a dotted
other), so the chain reproduces the regex exactly. -/
def removeExtension (filename : String) : String :=
  if endsWithStr filename ".js" then dropRightStr filename 3
  else if endsWithStr filename ".mjs" then dropRightStr filename 4
  else if endsWithStr filename ".cjs" then dropRightStr filename 4
  else if endsWithStr filename ".ts" then dropRightStr filename 3
  else if endsWithStr filename ".mts" then dropRightStr filename 4
  else if endsWithStr filename ".cts" then dropRightStr filename 4
  else if endsWithStr filename ".json" then dropRightStr filename 5
  else if endsWithStr filename ".jsx" then dropRightStr filename 4
  else if endsWithStr filename ".tsx" then dropRightStr filename 4
  else filename

/-- Extension stripping plus removal of a residual `.d` (declaration files),
as in the grouping loop of `generatePackageExports`. -/
def normalizeEntryPath (path : String) : String :=
  if endsWithStr (removeExtension path) ".d" then dropRightStr (removeExtension path) 2
  else removeExtension path

/-- The `.mjs` bucket of a group's files. -/
def mjsFiles (files : List String) : List String :=
  files.filter fun f => endsWithStr f ".mjs"

/-- The `.cjs` bucket of a group's files. -/
def cjsFiles (files : List String) : List String :=
  files.filter fun f => endsWithStr f ".cjs"

/-- The `.d.ts` bucket of a group's files. -/
def dtsFiles (files : List String) : List String :=
  files.filter fun f => endsWithStr f ".d.ts"

/-- The `.d.mts` bucket of a group's files. -/
def dmtsFiles (files : List String) : List String :=
  files.filter fun f => endsWithStr f ".d.mts"

/-- The `.d.cts` bucket of a group's files. -/
def dctsFiles (files : List String) : List String :=
  files.filter fun f => endsWithStr f ".d.cts"

/-- Whether any declaration-file bucket of the group is non-empty. -/
def hasDeclFiles (files : List String) : Bool :=
  !(dtsFiles files).isEmpty || !(dmtsFiles files).isEmpty || !(dctsFiles files).isEmpty

/-- Literal output path `./<outDir>/<pre><file>` as emitted by
`generateExportConditions`. -/
def filePath (outDir pre f : String) : String :=
  "./" ++ outDir ++ "/" ++ pre ++ f

/-- `generateExportConditions` from `src/utils.ts`. The sequential key
assignments of the JavaScript object are modelled functionally: `imp`/`req`
merge the main branch (module file present) with the types-only branch (the
two are mutually exclusive because the types-only branch requires the
corresponding bucket to be empty), and the final `types` re-assignment of the
types-only branch is applied last, exactly under the source's condition. -/
def generateExportConditions (files : List String) (outDir : String) (pre : String) :
    ExportValue :=
  let mjs := mjsFiles files
  let cjs := cjsFiles files
  let dts := dtsFiles files
  let dmts := dmtsFiles files
  let dcts := dctsFiles files
  let hasDeclarationFiles := hasDeclFiles files
  if files.length == 1 && !hasDeclarationFiles && !(includesStr (files.headD "") ".d.") then
    .str (filePath outDir pre (files.headD ""))
  else
    let typesField : Option String :=
      if hasDeclarationFiles then
        if !dts.isEmpty then some (filePath outDir pre (dts.headD ""))
        else if !dmts.isEmpty then some (filePath outDir pre (dmts.headD ""))
        else if !dcts.isEmpty then some (filePath outDir pre (dcts.headD ""))
        else none
      else none
    let impField : Option SubCondition :=
      if !mjs.isEmpty then
        some { default := some (filePath outDir pre (mjs.headD ""))
               types :=
                 if !dmts.isEmpty then some (filePath outDir pre (dmts.headD ""))
                 else if !dts.isEmpty then some (filePath outDir pre (dts.headD ""))
                 else none }
      else if cjs.isEmpty && hasDeclarationFiles && !dmts.isEmpty then
        some { types := some (filePath outDir pre (dmts.headD "")), default := none }
      else none
    let reqField : Option SubCondition :=
      if !cjs.isEmpty then
        some { default := some (filePath outDir pre (cjs.headD ""))
               types :=
                 if !dcts.isEmpty then some (filePath outDir pre (dcts.headD ""))
                 else if !dts.isEmpty then some (filePath outDir pre (dts.headD ""))
                 else none }
      else if mjs.isEmpty && hasDeclarationFiles && !dcts.isEmpty then
        some { types := some (filePath outDir pre (dcts.headD "")), default := none }
      else none
    let typesField2 : Option String :=
      if mjs.isEmpty && cjs.isEmpty && hasDeclarationFiles && !dts.isEmpty
          && impField.isNone && reqField.isNone then
        some (filePath outDir pre (dts.headD ""))
      else typesField
    .cond { types := typesField2, imp := impField, req := reqField }

/-- Wildcard output path `./<outDir>/<folderName><suffix>` as emitted by
`generateFolderPatternExportConditions` (the suffix carries the leading
slash, e.g. `"/*.d.ts"`). -/
def folderPath (outDir folderName suffix : String) : String :=
  "./" ++ outDir ++ "/" ++ folderName ++ suffix

/-- `generateFolderPatternExportConditions` from `src/utils.ts`: same policy
as `generateExportConditions` except that every emitted path is a wildcard
pattern per suffix class and there is no degenerate bare-string case. -/
def generateFolderPatternExportConditions (files : List String) (outDir folderName : String) :
    ExportConditions :=
  let mjs := mjsFiles files
  let cjs := cjsFiles files
  let dts := dtsFiles files
  let dmts := dmtsFiles files
  let dcts := dctsFiles files
  let hasDeclarationFiles := hasDeclFiles files
  let typesField : Option String :=
    if hasDeclarationFiles then
      if !dts.isEmpty then some (folderPath outDir folderName "/*.d.ts")
      else if !dmts.isEmpty then some (folderPath outDir folderName "/*.d.mts")
      else if !dcts.isEmpty then some (folderPath outDir folderName "/*.d.cts")
      else none
    else none
  let impField : Option SubCondition :=
    if !mjs.isEmpty then
      some { default := some (folderPath outDir folderName "/*.mjs")
             types :=
               if !dmts.isEmpty then some (folderPath outDir folderName "/*.d.mts")
               else if !dts.isEmpty then some (folderPath outDir folderName "/*.d.ts")
               else none }
    else if cjs.isEmpty && hasDeclarationFiles && !dmts.isEmpty then
      some { types := some (folderPath outDir folderName "/*.d.mts"), default := none }
    else none
  let reqField : Option SubCondition :=
    if !cjs.isEmpty then
      some { default := some (folderPath outDir folderName "/*.cjs")
             types :=
               if !dcts.isEmpty then some (folderPath outDir folderName "/*.d.cts")
               else if !dts.isEmpty then some (folderPath outDir folderName "/*.d.ts")
               else none }
    else if mjs.isEmpty && hasDeclarationFiles && !dcts.isEmpty then
      some { types := some (folderPath outDir folderName "/*.d.cts"), default := none }
    else none
  let typesField2 : Option String :=
    if mjs.isEmpty && cjs.isEmpty && hasDeclarationFiles && !dts.isEmpty
        && impField.isNone && reqField.isNone then
      some (folderPath outDir folderName "/*.d.ts")
    else typesField
  { types := typesField2, imp := impField, req := reqField }

/-- The JavaScript truthiness plus `Object.keys(x).length > 0` check applied by
`generatePackageExports` to each builder result before inserting it:
`Object.keys` of a string lists its character indices, so a string passes
exactly when it is non-empty; an object passes when it has at least one key. -/
def condHasKeys (c : ExportConditions) : Bool :=
  c.types.isSome || c.imp.isSome || c.req.isSome

/-- Truthy-and-nonempty check on an export value (see `condHasKeys`). -/
def exportValueHasKeys : ExportValue → Bool
  | .str s => 0 < s.data.length
  | .cond c => condHasKeys c

/-- Append `path` to the group named `key`, creating the group at the end when
absent: models `Map.set`/`push` insertion order of the grouping loop. -/
def insertGroup (groups : List (String × List String)) (key : String) (path : String) :
    List (String × List String) :=
  if groups.any (fun g => g.1 == key) then
    groups.map fun g => if g.1 == key then (g.1, g.2 ++ [path]) else g
  else groups ++ [(key, [path])]

/-- The first-segment folder name of an entry's path (`parts[0]` in the
source: the head of the extension-stripped path split on `/`). -/
def firstSegment (path : String) : String :=
  (splitSlash (normalizeEntryPath path)).headD ""

/-- One iteration of the grouping loop of `generatePackageExports`: skip
non-declaration chunks, normalize the path, derive the base key from the
first segment, apply the selective-mode folder filter, then record the
original path under the base key. -/
def groupStep (shouldIncludeAll : Bool) (filterFolders : List String)
    (groups : List (String × List String)) (entry : BuildEntry) :
    List (String × List String) :=
  if entry.chunk && !(includesStr entry.path ".d.") then groups
  else if !shouldIncludeAll && !filterFolders.isEmpty
      && !(filterFolders.contains (firstSegment entry.path)) then groups
  else
    insertGroup groups
      (if 1 < (splitSlash (normalizeEntryPath entry.path)).length then
        "./" ++ firstSegment entry.path
      else ".")
      entry.path

/-- The complete grouping pass over the entry list (`entryGroups` in the source). -/
def groupEntries (buildEntries : List BuildEntry) (shouldIncludeAll : Bool)
    (filterFolders : List String) : List (String × List String) :=
  buildEntries.foldl (groupStep shouldIncludeAll filterFolders) []

/-- The root group's member restriction: files whose extension-stripped name
is exactly `index` or that contain no slash. -/
def mainFilesOf (files : List String) : List String :=
  files.filter fun f => removeExtension f == "index" || !(includesStr f "/")

/-- Per-group emission of `generatePackageExports`: the root group filters to
index-or-slash-free members and uses the literal builder; a non-root group
with a slash-bearing member uses the wildcard builder under `<baseKey>/*`;
any other non-root group falls back to the literal builder under its own key. -/
def groupExports (outDir : String) (baseKey : String) (files : List String) :
    Option (String × ExportValue) :=
  if baseKey == "." then
    if !(mainFilesOf files).isEmpty then
      if exportValueHasKeys (generateExportConditions (mainFilesOf files) outDir "") then
        some (".", generateExportConditions (mainFilesOf files) outDir "")
      else none
    else none
  else if files.any (fun f => includesStr f "/" && !(baseKey == ".")) then
    if condHasKeys (generateFolderPatternExportConditions files outDir (dropStr baseKey 2)) then
      some (baseKey ++ "/*", .cond (generateFolderPatternExportConditions files outDir (dropStr baseKey 2)))
    else none
  else
    if exportValueHasKeys (generateExportConditions files outDir "") then
      some (baseKey, generateExportConditions files outDir "")
    else none

/-- Assignment `exports[key] = value` on the assembled mapping (overwrite in
place, append new keys at the end). -/
def setKey (m : List (String × ExportValue)) (key : String) (value : ExportValue) :
    List (String × ExportValue) :=
  if m.any (fun p => p.1 == key) then
    m.map fun p => if p.1 == key then (key, value) else p
  else m ++ [(key, value)]

/-- Derived `shouldIncludeAll` flag: mode `true`, or an empty folder list. -/
def shouldIncludeAllOf : ExportImport → Bool
  | .flag b => b
  | .folders l => l.isEmpty

/-- Derived folder filter list: the list itself in selective mode, else empty. -/
def filterFoldersOf : ExportImport → List String
  | .flag _ => []
  | .folders l => l

/-- The mapping assembled by the per-group loop of `generatePackageExports`
(the `exports` object just before the final emptiness check). -/
def assembleExports (buildEntries : List BuildEntry) (outDir : String)
    (exportImport : ExportImport) : List (String × ExportValue) :=
  (groupEntries buildEntries (shouldIncludeAllOf exportImport)
      (filterFoldersOf exportImport)).foldl
    (fun acc g =>
      match groupExports outDir g.1 g.2 with
      | none => acc
      | some kv => setKey acc kv.1 kv.2)
    []

/-- `generatePackageExports` from `src/utils.ts`: `undefined` (modelled as
`none`) when the mode is `false` or the assembled mapping is empty, otherwise
the assembled mapping. -/
def generatePackageExports (buildEntries : List BuildEntry) (outDir : String)
    (exportImport : ExportImport) : Option (List (String × ExportValue)) :=
  if exportImport = ExportImport.flag false then none
  else if 0 < (assembleExports buildEntries outDir exportImport).length then
    some (assembleExports buildEntries outDir exportImport)
  else none

/-! ## Helper lemmas -/

/-- The source's `if (filename)` guard is redundant for the `.mjs` test: the
empty string has no non-empty suffix. -/
theorem guard_nonempty_mjs (f : String) :
    (f != "" && endsWithStr f ".mjs") = endsWithStr f ".mjs" := by
  by_cases hf : f = ""
  · subst hf; decide
  · rw [bne_iff_ne.mpr hf, Bool.true_and]

/-- The source's `if (filename)` guard is redundant for the `.cjs` test. -/
theorem guard_nonempty_cjs (f : String) :
    (f != "" && endsWithStr f ".cjs") = endsWithStr f ".cjs" := by
  by_cases hf : f = ""
  · subst hf; decide
  · rw [bne_iff_ne.mpr hf, Bool.true_and]

/-- Shared equality between the implemented and the reference export-type
inference, by induction on the condition chain. -/
theorem inferExportType_eq_ref (condition : String) (previousConditions : List String)
    (filename : String) :
    inferExportType condition previousConditions filename
      = refInferExportType condition previousConditions filename := by
  induction previousConditions generalizing condition with
  | nil =>
      simp only [inferExportType, refInferExportType, guard_nonempty_mjs, guard_nonempty_cjs]
  | cons newCondition rest ih =>
      simp only [inferExportType, refInferExportType, guard_nonempty_mjs, guard_nonempty_cjs]
      rw [ih]

mutual
/-- Per-pair extraction agrees with the reference per-pair extraction. -/
theorem extractValue_eq_ref (key : String) (conditions : List String) :
    (v : Exports) → extractValue key conditions v = refExtractValue key conditions v
  | .str s => by
      simp only [extractValue, refExtractValue, inferExportType_eq_ref]
  | .map m => by
      simp only [extractValue, refExtractValue]
      exact extractEntries_eq_ref (conditions ++ [key]) m

/-- Mapping extraction agrees with the reference mapping extraction. -/
theorem extractEntries_eq_ref (conditions : List String) :
    (m : ExportsList) → extractEntries conditions m = refExtractEntries conditions m
  | .nil => rfl
  | .cons key value rest => by
      simp only [extractEntries, refExtractEntries,
        extractValue_eq_ref key conditions value, extractEntries_eq_ref conditions rest]
end

/-- `isInfixChars` decides the infix relation on character lists. -/
theorem isInfixChars_iff (t s : List Char) : isInfixChars t s = true ↔ t <:+: s := by
  induction s with
  | nil =>
      simp only [isInfixChars, List.isEmpty_iff, List.infix_nil]
  | cons c rest ih =>
      simp only [isInfixChars, Bool.or_eq_true, List.isPrefixOf_iff_prefix, ih,
        List.infix_cons_iff]

/-- A single-character inclusion test is membership of that character. -/
theorem includesStr_slash_iff (s : String) : includesStr s "/" = true ↔ '/' ∈ s.data := by
  rw [includesStr, isInfixChars_iff]
  constructor
  · intro h
    exact h.subset (by simp)
  · intro h
    obtain ⟨l1, l2, hl⟩ := List.append_of_mem h
    exact ⟨l1, l2, by simp [hl]⟩

/-- Dropping characters from the right yields a prefix of the character list. -/
theorem dropRightStr_pref (s : String) (n : Nat) : (dropRightStr s n).data <+: s.data :=
  List.take_prefix _ _

/-- Extension stripping only removes a suffix: the residual is a prefix. -/
theorem removeExtension_pref (p : String) : (removeExtension p).data <+: p.data := by
  unfold removeExtension
  repeat' split
  all_goals first
    | exact dropRightStr_pref _ _
    | exact List.prefix_refl _

/-- Path normalization only removes a suffix: the residual is a prefix. -/
theorem normalizeEntryPath_pref (p : String) : (normalizeEntryPath p).data <+: p.data := by
  unfold normalizeEntryPath
  split
  · exact (dropRightStr_pref _ _).trans (removeExtension_pref p)
  · exact removeExtension_pref p

/-- If the character-level split produced more than one segment, the separator
occurs in the input. -/
theorem splitCharsAux_mem (sep : Char) (l acc : List Char)
    (h : 1 < (splitCharsAux sep l acc).length) : sep ∈ l := by
  induction l generalizing acc with
  | nil => simp [splitCharsAux] at h
  | cons c rest ih =>
      by_cases hc : c == sep
      · have : c = sep := by simpa using hc
        simp [this]
      · simp only [splitCharsAux, hc, if_false] at h
        exact List.mem_cons_of_mem _ (ih _ h)

/-- Two suffix tests with incomparable patterns cannot both succeed: suffixes
of a common string are comparable, so the shorter pattern would have to be a
suffix of the longer one. -/
theorem endsWith_excl (s a b : String) (hle : a.data.length ≤ b.data.length)
    (hnot : a.data.isSuffixOf b.data = false) :
    ¬(endsWithStr s a = true ∧ endsWithStr s b = true) := by
  rintro ⟨ha, hb⟩
  rw [endsWithStr, List.isSuffixOf_iff_suffix] at ha hb
  rcases List.suffix_or_suffix_of_suffix ha hb with h | h
  · rw [List.isSuffixOf_iff_suffix.mpr h] at hnot
    exact Bool.noConfusion hnot
  · have hba : b.data = a.data := h.eq_of_length (le_antisymm h.length_le hle)
    rw [List.isSuffixOf_iff_suffix.mpr (hba ▸ List.suffix_refl a.data)] at hnot
    exact Bool.noConfusion hnot

/-- From one suffix test succeeding and an exclusivity fact, the other fails. -/
theorem excl_false {x y : Bool} (hx : x = true) (h : ¬(x = true ∧ y = true)) : y = false := by
  cases y with
  | false => rfl
  | true => exact absurd ⟨hx, rfl⟩ h

/-- A non-declaration chunk entry is skipped by the grouping loop. -/
theorem groupStep_skip_chunk (si : Bool) (ff : List String)
    (acc : List (String × List String)) (e : BuildEntry)
    (h1 : e.chunk = true) (h2 : includesStr e.path ".d." = false) :
    groupStep si ff acc e = acc := by
  unfold groupStep
  rw [h1, h2]
  simp

/-- A declaration-carrying entry is grouped identically whether or not it is
flagged as a chunk. -/
theorem groupStep_chunk_irrelevant (si : Bool) (ff : List String)
    (acc : List (String × List String)) (p : String)
    (hp : includesStr p ".d." = true) :
    groupStep si ff acc ⟨p, true⟩ = groupStep si ff acc ⟨p, false⟩ := by
  unfold groupStep
  rw [hp]
  simp

/-- In selective mode, an entry whose first path segment is not among the
allowed folders is skipped by the grouping loop. -/
theorem groupStep_skip_filtered (L : List String)
    (acc : List (String × List String)) (e : BuildEntry)
    (hL : L ≠ []) (hseg : L.contains (firstSegment e.path) = false) :
    groupStep (shouldIncludeAllOf (.folders L)) (filterFoldersOf (.folders L)) acc e = acc := by
  have hLe : L.isEmpty = false := by
    cases L with
    | nil => exact absurd rfl hL
    | cons a l => rfl
  unfold groupStep shouldIncludeAllOf filterFoldersOf
  split
  · rfl
  · simp only [hLe, hseg, Bool.not_false, Bool.true_and, Bool.and_true, Bool.and_self, if_true]

/-- Folding the grouping step over a list with a skipped middle entry equals
folding over the list without it. -/
theorem groupEntries_skip (si : Bool) (ff : List String) (l1 l2 : List BuildEntry)
    (e : BuildEntry) (h : ∀ acc, groupStep si ff acc e = acc) :
    groupEntries (l1 ++ e :: l2) si ff = groupEntries (l1 ++ l2) si ff := by
  unfold groupEntries
  rw [List.foldl_append, List.foldl_append]
  show List.foldl _ (groupStep si ff (List.foldl _ [] l1) e) l2 = _
  rw [h]

/-- Replacing a middle entry by one the grouping step treats identically
leaves the grouping unchanged. -/
theorem groupEntries_congr_mid (si : Bool) (ff : List String) (l1 l2 : List BuildEntry)
    (e1 e2 : BuildEntry) (h : ∀ acc, groupStep si ff acc e1 = groupStep si ff acc e2) :
    groupEntries (l1 ++ e1 :: l2) si ff = groupEntries (l1 ++ e2 :: l2) si ff := by
  unfold groupEntries
  rw [List.foldl_append, List.foldl_append]
  show List.foldl _ (groupStep si ff (List.foldl _ [] l1) e1) l2
      = List.foldl _ (groupStep si ff (List.foldl _ [] l1) e2) l2
  rw [h]

/-- The generator's output depends on the entry list only through the grouping. -/
theorem generate_eq_of_groups_eq (E1 E2 : List BuildEntry) (outDir : String)
    (mode : ExportImport)
    (h : groupEntries E1 (shouldIncludeAllOf mode) (filterFoldersOf mode)
        = groupEntries E2 (shouldIncludeAllOf mode) (filterFoldersOf mode)) :
    generatePackageExports E1 outDir mode = generatePackageExports E2 outDir mode := by
  unfold generatePackageExports assembleExports
  rw [h]

/-- The group-membership property maintained by the grouping loop: every group
is non-empty, and every member of a non-root group contains a slash. -/
def GroupInv (g : String × List String) : Prop :=
  g.2 ≠ [] ∧ (g.1 ≠ "." → ∀ f ∈ g.2, includesStr f "/" = true)

/-- `insertGroup` preserves the group invariant when the inserted path has a
slash whenever its key is not the root key. -/
theorem insertGroup_inv (acc : List (String × List String)) (k p : String)
    (hacc : ∀ g ∈ acc, GroupInv g) (hp : k ≠ "." → includesStr p "/" = true) :
    ∀ g ∈ insertGroup acc k p, GroupInv g := by
  intro g hg
  unfold insertGroup at hg
  split at hg
  · rw [List.mem_map] at hg
    obtain ⟨g0, hg0, heq⟩ := hg
    by_cases hk : g0.1 == k
    · have hk2 : g0.1 = k := by simpa using hk
      rw [if_pos hk] at heq
      subst heq
      refine ⟨by simp, ?_⟩
      intro hne f hf
      rw [List.mem_append] at hf
      rcases hf with hf | hf
      · exact (hacc g0 hg0).2 hne f hf
      · have : f = p := by simpa using hf
        subst this
        exact hp (hk2 ▸ hne)
    · rw [if_neg hk] at heq
      subst heq
      exact hacc g0 hg0
  · rw [List.mem_append] at hg
    rcases hg with hg | hg
    · exact hacc g hg
    · have : g = (k, [p]) := by simpa using hg
      subst this
      refine ⟨by simp, ?_⟩
      intro hne f hf
      have : f = p := by simpa using hf
      subst this
      exact hp hne

/-- A non-root base key produced by the grouping step forces a slash in the
original path: more than one split segment means the separator occurs in the
normalized path, which is a prefix of the original. -/
theorem slash_of_many_parts (p : String)
    (h : 1 < (splitSlash (normalizeEntryPath p)).length) :
    includesStr p "/" = true := by
  rw [includesStr_slash_iff]
  have hmem : '/' ∈ (normalizeEntryPath p).data := by
    apply splitCharsAux_mem '/' _ []
    have := h
    rw [splitSlash, List.length_map] at this
    exact this
  exact (normalizeEntryPath_pref p).subset hmem

/-- Every step of the grouping loop preserves the group invariant. -/
theorem groupStep_inv (si : Bool) (ff : List String)
    (acc : List (String × List String)) (e : BuildEntry)
    (hacc : ∀ g ∈ acc, GroupInv g) :
    ∀ g ∈ groupStep si ff acc e, GroupInv g := by
  unfold groupStep
  split
  · exact hacc
  · split
    · exact hacc
    · apply insertGroup_inv _ _ _ hacc
      intro hk
      split at hk
      · next hlen => exact slash_of_many_parts e.path hlen
      · exact absurd rfl hk

/-- Every group produced by the grouping pass satisfies the group invariant. -/
theorem groupEntries_inv (entries : List BuildEntry) (si : Bool) (ff : List String) :
    ∀ g ∈ groupEntries entries si ff, GroupInv g := by
  unfold groupEntries
  suffices h : ∀ (l : List BuildEntry) (acc : List (String × List String)),
      (∀ g ∈ acc, GroupInv g) → ∀ g ∈ List.foldl (groupStep si ff) acc l, GroupInv g by
    exact h entries [] (by intro g hg; exact absurd hg (List.not_mem_nil g))
  intro l
  induction l with
  | nil => intro acc hacc; exact hacc
  | cons e rest ih =>
      intro acc hacc
      exact ih _ (groupStep_inv si ff acc e hacc)

/-- The nested `types` sub-key of the `import` condition object, if any. -/
def impTypesOfCond (c : ExportConditions) : Option String :=
  match c.imp with
  | none => none
  | some s => s.types

/-- The nested `types` sub-key of the `require` condition object, if any. -/
def reqTypesOfCond (c : ExportConditions) : Option String :=
  match c.req with
  | none => none
  | some s => s.types

/-- The top-level `types` key of an export value (a bare string has none). -/
def topTypesOf : ExportValue → Option String
  | .str _ => none
  | .cond c => c.types

/-- The `import.types` sub-key of an export value (a bare string has none). -/
def impTypesOf : ExportValue → Option String
  | .str _ => none
  | .cond c => impTypesOfCond c

/-- The `require.types` sub-key of an export value (a bare string has none). -/
def reqTypesOf : ExportValue → Option String
  | .str _ => none
  | .cond c => reqTypesOfCond c

/-- Appending `"/*"` makes `"/*"` a suffix of the result. -/
theorem endsWith_append_star (x : String) : endsWithStr (x ++ "/*") "/*" = true := by
  rw [endsWithStr, String.data_append]
  exact List.isSuffixOf_iff_suffix.mpr (List.suffix_append _ _)

/-- Every key emitted by the per-group step is the root key or a wildcard key,
provided non-root groups are non-empty with slash-bearing members. -/
theorem groupExports_key (outDir baseKey : String) (files : List String)
    (hinv : GroupInv (baseKey, files)) :
    ∀ kv, groupExports outDir baseKey files = some kv
      → kv.1 = "." ∨ endsWithStr kv.1 "/*" = true := by
  intro kv hkv
  unfold groupExports at hkv
  by_cases hmain : baseKey == "."
  · rw [if_pos hmain] at hkv
    split at hkv
    · split at hkv
      · left
        exact congrArg Prod.fst (Option.some.inj hkv).symm
      · exact absurd hkv (by simp)
    · exact absurd hkv (by simp)
  · rw [if_neg hmain] at hkv
    have hne : baseKey ≠ "." := by simpa using hmain
    have hany : files.any (fun f => includesStr f "/" && !(baseKey == ".")) = true := by
      rw [List.any_eq_true]
      obtain ⟨hnil, hslash⟩ := hinv
      obtain ⟨f0, hf0⟩ := List.exists_mem_of_ne_nil files hnil
      refine ⟨f0, hf0, ?_⟩
      rw [hslash hne f0 hf0]
      simp [hmain]
    rw [if_pos hany] at hkv
    split at hkv
    · right
      have : kv.1 = baseKey ++ "/*" := congrArg Prod.fst (Option.some.inj hkv).symm
      rw [this]
      exact endsWith_append_star baseKey
    · exact absurd hkv (by simp)

/-- `setKey` preserves any property of the keys that holds for the new key. -/
theorem setKey_keys (m : List (String × ExportValue)) (k : String) (v : ExportValue)
    (K : String → Prop) (hm : ∀ p ∈ m, K p.1) (hk : K k) :
    ∀ p ∈ setKey m k v, K p.1 := by
  intro p hp
  unfold setKey at hp
  split at hp
  · rw [List.mem_map] at hp
    obtain ⟨p0, hp0, heq⟩ := hp
    by_cases hpk : p0.1 == k
    · rw [if_pos hpk] at heq
      subst heq
      exact hk
    · rw [if_neg hpk] at heq
      subst heq
      exact hm p0 hp0
  · rw [List.mem_append] at hp
    rcases hp with hp | hp
    · exact hm p hp
    · have : p = (k, v) := by simpa using hp
      subst this
      exact hk

/-- Every key of the assembled mapping is the root key or a wildcard key. -/
theorem assembleExports_keys (entries : List BuildEntry) (outDir : String)
    (mode : ExportImport) :
    ∀ p ∈ assembleExports entries outDir mode,
      p.1 = "." ∨ endsWithStr p.1 "/*" = true := by
  unfold assembleExports
  have hgroups := groupEntries_inv entries (shouldIncludeAllOf mode) (filterFoldersOf mode)
  revert hgroups
  generalize groupEntries entries (shouldIncludeAllOf mode) (filterFoldersOf mode) = groups
  intro hgroups
  suffices h : ∀ (gs : List (String × List String))
      (acc : List (String × ExportValue)),
      (∀ g ∈ gs, GroupInv g)
      → (∀ p ∈ acc, p.1 = "." ∨ endsWithStr p.1 "/*" = true)
      → ∀ p ∈ List.foldl
          (fun acc g =>
            match groupExports outDir g.1 g.2 with
            | none => acc
            | some kv => setKey acc kv.1 kv.2) acc gs,
          p.1 = "." ∨ endsWithStr p.1 "/*" = true by
    exact h groups [] hgroups (by intro p hp; exact absurd hp (List.not_mem_nil p))
  intro gs
  induction gs with
  | nil => intro acc hgs hacc; exact hacc
  | cons g rest ih =>
      intro acc hgs hacc
      apply ih _ (fun g' hg' => hgs g' (List.mem_cons_of_mem g hg'))
      cases hge : groupExports outDir g.1 g.2 with
      | none => simpa [hge] using hacc
      | some kv =>
          simp only [hge]
          exact setKey_keys acc kv.1 kv.2
            (fun key => key = "." ∨ endsWithStr key "/*" = true) hacc
            (groupExports_key outDir g.1 g.2 (hgs g (List.mem_cons_self g rest)) kv hge)

/-! ## Claim theorems -/

/-- C1: For the entry list `[index.mjs, index.cjs, index.d.mts, index.d.cts]`,
outDir `dist` and mode `true`, `generatePackageExports` returns exactly the
single-key mapping `{"."}` whose value has top-level `types ./dist/index.d.mts`,
`import {types ./dist/index.d.mts, default ./dist/index.mjs}` and
`require {types ./dist/index.d.cts, default ./dist/index.cjs}`. -/
theorem claim1_main_entry_exports :
    generatePackageExports
      [⟨"index.mjs", false⟩, ⟨"index.cjs", false⟩, ⟨"index.d.mts", false⟩,
        ⟨"index.d.cts", false⟩]
      "dist" (.flag true)
    = some [(".", .cond
        { types := some "./dist/index.d.mts"
          imp := some { types := some "./dist/index.d.mts"
                        default := some "./dist/index.mjs" }
          req := some { types := some "./dist/index.d.cts"
                        default := some "./dist/index.cjs" } })] := by
  rfl

/-- C2: For every condition string, chain and filename, `inferExportType`
equals the five-step first-match-wins reference definition (`.d.ts`/`.mjs`
suffixes give `esm`, `.cjs` gives `cjs`, then the condition name decides,
then the chain is walked outward, defaulting to `esm` when exhausted). -/
theorem claim2_infer_export_type_reference (condition : String)
    (previousConditions : List String) (filename : String) :
    inferExportType condition previousConditions filename
      = refInferExportType condition previousConditions filename :=
  inferExportType_eq_ref condition previousConditions filename

/-- C4: `generatePackageExports` returns `undefined` exactly when the mode is
`false` or the assembled mapping has no keys; in particular it returns
`undefined` on every empty entry list, and otherwise it returns the assembled
mapping, which has at least one key. -/
theorem claim4_undefined_iff_disabled_or_empty (entries : List BuildEntry)
    (outDir : String) (mode : ExportImport) :
    (generatePackageExports entries outDir mode = none
      ↔ mode = ExportImport.flag false ∨ assembleExports entries outDir mode = [])
    ∧ generatePackageExports [] outDir mode = none
    ∧ (generatePackageExports entries outDir mode = none
        ∨ (generatePackageExports entries outDir mode
              = some (assembleExports entries outDir mode)
            ∧ assembleExports entries outDir mode ≠ [])) := by
  by_cases hm : mode = ExportImport.flag false
  · refine ⟨?_, ?_, ?_⟩
    · simp [generatePackageExports, hm]
    · simp [generatePackageExports, hm]
    · left
      simp [generatePackageExports, hm]
  · have hempty : generatePackageExports [] outDir mode = none := by
      unfold generatePackageExports
      rw [if_neg hm]
      rfl
    refine ⟨?_, hempty, ?_⟩
    · unfold generatePackageExports
      rw [if_neg hm]
      cases hE : assembleExports entries outDir mode with
      | nil => simp [hm]
      | cons p rest => simp [hm]
    · unfold generatePackageExports
      rw [if_neg hm]
      cases hE : assembleExports entries outDir mode with
      | nil => left; rfl
      | cons p rest => right; exact ⟨by simp, by simp⟩

/-- C4 witness: the characterization applied to a concrete generating input. -/
theorem claim4_witness :
    (generatePackageExports [⟨"index.mjs", false⟩] "dist" (.flag true) = none
      ↔ ExportImport.flag true = ExportImport.flag false
        ∨ assembleExports [⟨"index.mjs", false⟩] "dist" (.flag true) = [])
    ∧ generatePackageExports [] "dist" (.flag true) = none
    ∧ (generatePackageExports [⟨"index.mjs", false⟩] "dist" (.flag true) = none
        ∨ (generatePackageExports [⟨"index.mjs", false⟩] "dist" (.flag true)
              = some (assembleExports [⟨"index.mjs", false⟩] "dist" (.flag true))
            ∧ assembleExports [⟨"index.mjs", false⟩] "dist" (.flag true) ≠ [])) :=
  claim4_undefined_iff_disabled_or_empty [⟨"index.mjs", false⟩] "dist" (.flag true)

/-- C5: A chunk entry whose path lacks `.d.` contributes nothing (removing it
from any entry list leaves the output unchanged), a chunk entry whose path
contains `.d.` is retained (grouped exactly like the unflagged entry), and
the concrete list `[index.mjs, chunk-1.mjs(chunk)]` with outDir `dist`, mode
`true` yields exactly `{".": "./dist/index.mjs"}`. -/
theorem claim5_chunk_filter_and_collapse (l1 l2 : List BuildEntry) (e : BuildEntry)
    (p : String) (outDir : String) (mode : ExportImport)
    (h1 : e.chunk = true) (h2 : includesStr e.path ".d." = false)
    (hp : includesStr p ".d." = true) :
    generatePackageExports (l1 ++ e :: l2) outDir mode
        = generatePackageExports (l1 ++ l2) outDir mode
    ∧ generatePackageExports (l1 ++ ⟨p, true⟩ :: l2) outDir mode
        = generatePackageExports (l1 ++ ⟨p, false⟩ :: l2) outDir mode
    ∧ generatePackageExports [⟨"index.mjs", false⟩, ⟨"chunk-1.mjs", true⟩] "dist" (.flag true)
        = some [(".", .str "./dist/index.mjs")] := by
  refine ⟨?_, ?_, by rfl⟩
  · apply generate_eq_of_groups_eq
    apply groupEntries_skip
    intro acc
    exact groupStep_skip_chunk _ _ acc e h1 h2
  · apply generate_eq_of_groups_eq
    apply groupEntries_congr_mid
    intro acc
    exact groupStep_chunk_irrelevant _ _ acc p hp

/-- C5 witness: the chunk filter applied at a concrete input. -/
theorem claim5_witness :
    generatePackageExports ([⟨"index.mjs", false⟩] ++ ⟨"chunk-1.mjs", true⟩ :: []) "dist"
        (.flag true)
      = generatePackageExports ([⟨"index.mjs", false⟩] ++ []) "dist" (.flag true)
    ∧ generatePackageExports ([⟨"index.mjs", false⟩] ++ ⟨"chunk.d.ts", true⟩ :: []) "dist"
        (.flag true)
      = generatePackageExports ([⟨"index.mjs", false⟩] ++ ⟨"chunk.d.ts", false⟩ :: []) "dist"
        (.flag true)
    ∧ generatePackageExports [⟨"index.mjs", false⟩, ⟨"chunk-1.mjs", true⟩] "dist" (.flag true)
        = some [(".", .str "./dist/index.mjs")] :=
  claim5_chunk_filter_and_collapse [⟨"index.mjs", false⟩] [] ⟨"chunk-1.mjs", true⟩
    "chunk.d.ts" "dist" (.flag true) (by rfl) (by decide) (by decide)

/-- C6 counterexample: in selective mode `["index"]` the root-level entry
`index.mjs` is not excluded — its first (and only) path segment `index` is a
member of the list, so it contributes the root key, refuting "root-level
entries are always excluded in this mode" (exclusion would have produced
`none`, as the empty-list evaluation shows). -/
theorem claim6_counterexample :
    generatePackageExports [⟨"index.mjs", false⟩] "dist" (.folders ["index"])
        = some [(".", .str "./dist/index.mjs")]
    ∧ generatePackageExports [] "dist" (.folders ["index"]) = none := by
  exact ⟨by rfl, by rfl⟩

/-- C6 (amended): when the mode is a non-empty folder list `L`, only entries
whose first path segment (of the extension-stripped path) is a member of `L`
contribute to the output — root-level entries included, so a root-level entry
is excluded exactly when its extension-stripped name is not in `L`; in
particular, mode `["plugins"]` against `index.mjs`, `plugins/vite.mjs`,
`utils/helper.mjs` yields a map whose only key is `./plugins/*`. -/
theorem claim6_selective_mode (l1 l2 : List BuildEntry) (e : BuildEntry)
    (outDir : String) (L : List String)
    (hL : L ≠ []) (hseg : L.contains (firstSegment e.path) = false) :
    generatePackageExports (l1 ++ e :: l2) outDir (.folders L)
        = generatePackageExports (l1 ++ l2) outDir (.folders L)
    ∧ generatePackageExports
        [⟨"index.mjs", false⟩, ⟨"plugins/vite.mjs", false⟩, ⟨"utils/helper.mjs", false⟩]
        "dist" (.folders ["plugins"])
      = some [("./plugins/*", .cond
          { types := none
            imp := some { types := none, default := some "./dist/plugins/*.mjs" }
            req := none })] := by
  refine ⟨?_, by rfl⟩
  apply generate_eq_of_groups_eq
  apply groupEntries_skip
  intro acc
  exact groupStep_skip_filtered L acc e hL hseg

/-- C6 witness: selective-mode exclusion applied at a concrete input. -/
theorem claim6_witness :
    generatePackageExports
        ([⟨"plugins/vite.mjs", false⟩] ++ ⟨"utils/helper.mjs", false⟩ :: []) "dist"
        (.folders ["plugins"])
      = generatePackageExports ([⟨"plugins/vite.mjs", false⟩] ++ []) "dist"
        (.folders ["plugins"])
    ∧ generatePackageExports
        [⟨"index.mjs", false⟩, ⟨"plugins/vite.mjs", false⟩, ⟨"utils/helper.mjs", false⟩]
        "dist" (.folders ["plugins"])
      = some [("./plugins/*", .cond
          { types := none
            imp := some { types := none, default := some "./dist/plugins/*.mjs" }
            req := none })] :=
  claim6_selective_mode [⟨"plugins/vite.mjs", false⟩] [] ⟨"utils/helper.mjs", false⟩
    "dist" ["plugins"] (by decide) (by decide)

/-- C8 counterexample: applied to the plain empty string, the implementation
returns the empty list (the JavaScript falsy guard), while the claimed
reference returns the one-element list `[{file: "", type: esm}]`. -/
theorem claim8_counterexample :
    extractExportFilenames (some (.str "")) [] = []
    ∧ refExtractClaimed (some (.str "")) [] = [⟨"", .esm⟩]
    ∧ extractExportFilenames (some (.str "")) [] ≠ refExtractClaimed (some (.str "")) [] := by
  refine ⟨by rfl, by rfl, by decide⟩

/-- C8 (amended): `extractExportFilenames` equals the claimed reference
definition amended at a single point: a top-level plain string yields its
one-element descriptor list unless it is the empty string (falsy in
JavaScript), which yields the empty list like `undefined`; the mapping case
(skip `.json` keys, emit strings via `inferExportType` on the accumulated
chain, recurse into nested mappings with the chain extended, concatenate in
iteration order) is exactly as claimed. -/
theorem claim8_extract_reference (exports : Option Exports) (conditions : List String) :
    extractExportFilenames exports conditions = refExtractAmended exports conditions := by
  cases exports with
  | none => rfl
  | some e =>
      cases e with
      | str s => rfl
      | map m =>
          show extractEntries conditions m = refExtractEntries conditions m
          exact extractEntries_eq_ref conditions m

/-- Re-association of the wildcard path pieces emitted for the `types` folder. -/
theorem types_folder_path (d suf : String) :
    folderPath d "types" suf = "./" ++ d ++ ("/types" ++ suf) := by
  unfold folderPath
  rw [String.append_assoc ("./" ++ d) "/" "types", String.append_assoc]
  rfl

/-- C7: For entries `types/index.d.ts`, `types/utils.d.mts`, `types/helpers.d.cts`
under mode `true` and any outDir `d`, the result is the single key `./types/*`
mapping to `{types: ./<d>/types/*.d.ts, import: {types: ./<d>/types/*.d.mts},
require: {types: ./<d>/types/*.d.cts}}` with no `import.default` or
`require.default`. -/
theorem claim7_types_only_folder (d : String) :
    generatePackageExports
      [⟨"types/index.d.ts", false⟩, ⟨"types/utils.d.mts", false⟩,
        ⟨"types/helpers.d.cts", false⟩]
      d (.flag true)
    = some [("./types/*", .cond
        { types := some ("./" ++ d ++ "/types/*.d.ts")
          imp := some { types := some ("./" ++ d ++ "/types/*.d.mts")
                        default := none }
          req := some { types := some ("./" ++ d ++ "/types/*.d.cts")
                        default := none } })] := by
  have hred : generatePackageExports
      [⟨"types/index.d.ts", false⟩, ⟨"types/utils.d.mts", false⟩,
        ⟨"types/helpers.d.cts", false⟩]
      d (.flag true)
    = some [("./types/*", .cond
        { types := some (folderPath d "types" "/*.d.ts")
          imp := some { types := some (folderPath d "types" "/*.d.mts"), default := none }
          req := some { types := some (folderPath d "types" "/*.d.cts"), default := none } })] := by
    rfl
  rw [hred, types_folder_path, types_folder_path, types_folder_path]
  rfl

/-- C9: Every member of a non-root group contains a slash, so the
`hasFolderPattern` check holds for every non-empty non-root group (the
single-file-in-subfolder fallback is never reached), and every key of a
returned mapping other than `.` ends with `/*`. -/
theorem claim9_no_fallback_keys (entries : List BuildEntry) (mode : ExportImport)
    (outDir : String) (k : String) (fs : List String) (f : String) (key : String)
    (v : ExportValue) (m : List (String × ExportValue))
    (hg : (k, fs) ∈ groupEntries entries (shouldIncludeAllOf mode) (filterFoldersOf mode))
    (hk : k ≠ ".") (hf : f ∈ fs)
    (hr : generatePackageExports entries outDir mode = some m)
    (hkey : (key, v) ∈ m) :
    includesStr f "/" = true
    ∧ fs.any (fun x => includesStr x "/" && !(k == ".")) = true
    ∧ (key = "." ∨ endsWithStr key "/*" = true) := by
  have hinv := groupEntries_inv entries (shouldIncludeAllOf mode) (filterFoldersOf mode)
    (k, fs) hg
  have hslash : ∀ x ∈ fs, includesStr x "/" = true := hinv.2 hk
  refine ⟨hslash f hf, ?_, ?_⟩
  · rw [List.any_eq_true]
    refine ⟨f, hf, ?_⟩
    rw [hslash f hf]
    have hbeq : (k == ".") = false := by
      rw [beq_eq_false_iff_ne]
      exact hk
    rw [hbeq]
    rfl
  · have hm : m = assembleExports entries outDir mode := by
      unfold generatePackageExports at hr
      by_cases hmode : mode = ExportImport.flag false
      · rw [if_pos hmode] at hr
        exact absurd hr (by simp)
      · rw [if_neg hmode] at hr
        split at hr
        · exact (Option.some.inj hr).symm
        · exact absurd hr (by simp)
    subst hm
    exact assembleExports_keys entries outDir mode (key, v) hkey

/-- C9 witness: the invariant applied to the concrete `plugins` folder group. -/
theorem claim9_witness :
    includesStr "plugins/vite.mjs" "/" = true
    ∧ ["plugins/vite.mjs"].any
        (fun x => includesStr x "/" && !("./plugins" == ".")) = true
    ∧ ("./plugins/*" = "." ∨ endsWithStr "./plugins/*" "/*" = true) :=
  claim9_no_fallback_keys [⟨"plugins/vite.mjs", false⟩] (.flag true) "dist"
    "./plugins" ["plugins/vite.mjs"] "plugins/vite.mjs" "./plugins/*"
    (.cond { types := none
             imp := some { types := none, default := some "./dist/plugins/*.mjs" }
             req := none })
    [("./plugins/*", .cond
        { types := none
          imp := some { types := none, default := some "./dist/plugins/*.mjs" }
          req := none })]
    (by decide) (by decide) (by decide) (by rfl) (by decide)

/-- C10: Suffix classification is exclusive: at most one of the five suffix
predicates `.mjs`, `.cjs`, `.d.ts`, `.d.mts`, `.d.cts` holds of any filename,
so the five per-extension buckets of the condition builders are pairwise
disjoint (in particular a `.d.mts` file is classified neither as `.mjs` nor
as `.d.ts`). -/
theorem claim10_suffix_exclusive (s : String) (files : List String) :
    (([".mjs", ".cjs", ".d.ts", ".d.mts", ".d.cts"].filter
        fun ext => endsWithStr s ext).length ≤ 1)
    ∧ (s ∈ mjsFiles files
        → s ∉ cjsFiles files ∧ s ∉ dtsFiles files ∧ s ∉ dmtsFiles files ∧ s ∉ dctsFiles files)
    ∧ (s ∈ cjsFiles files
        → s ∉ dtsFiles files ∧ s ∉ dmtsFiles files ∧ s ∉ dctsFiles files)
    ∧ (s ∈ dtsFiles files → s ∉ dmtsFiles files ∧ s ∉ dctsFiles files)
    ∧ (s ∈ dmtsFiles files
        → s ∉ dctsFiles files ∧ s ∉ mjsFiles files ∧ s ∉ dtsFiles files) := by
  have e12 : ¬(endsWithStr s ".mjs" = true ∧ endsWithStr s ".cjs" = true) :=
    endsWith_excl s ".mjs" ".cjs" (by decide) (by decide)
  have e13 : ¬(endsWithStr s ".mjs" = true ∧ endsWithStr s ".d.ts" = true) :=
    endsWith_excl s ".mjs" ".d.ts" (by decide) (by decide)
  have e14 : ¬(endsWithStr s ".mjs" = true ∧ endsWithStr s ".d.mts" = true) :=
    endsWith_excl s ".mjs" ".d.mts" (by decide) (by decide)
  have e15 : ¬(endsWithStr s ".mjs" = true ∧ endsWithStr s ".d.cts" = true) :=
    endsWith_excl s ".mjs" ".d.cts" (by decide) (by decide)
  have e23 : ¬(endsWithStr s ".cjs" = true ∧ endsWithStr s ".d.ts" = true) :=
    endsWith_excl s ".cjs" ".d.ts" (by decide) (by decide)
  have e24 : ¬(endsWithStr s ".cjs" = true ∧ endsWithStr s ".d.mts" = true) :=
    endsWith_excl s ".cjs" ".d.mts" (by decide) (by decide)
  have e25 : ¬(endsWithStr s ".cjs" = true ∧ endsWithStr s ".d.cts" = true) :=
    endsWith_excl s ".cjs" ".d.cts" (by decide) (by decide)
  have e34 : ¬(endsWithStr s ".d.ts" = true ∧ endsWithStr s ".d.mts" = true) :=
    endsWith_excl s ".d.ts" ".d.mts" (by decide) (by decide)
  have e35 : ¬(endsWithStr s ".d.ts" = true ∧ endsWithStr s ".d.cts" = true) :=
    endsWith_excl s ".d.ts" ".d.cts" (by decide) (by decide)
  have e45 : ¬(endsWithStr s ".d.mts" = true ∧ endsWithStr s ".d.cts" = true) :=
    endsWith_excl s ".d.mts" ".d.cts" (by decide) (by decide)
  have notmem : ∀ (pat : String), endsWithStr s pat = false
      → s ∉ files.filter (fun f => endsWithStr f pat) := by
    intro pat hpat hmem
    rw [List.mem_filter] at hmem
    rw [hmem.2] at hpat
    exact Bool.noConfusion hpat
  refine ⟨?_, ?_, ?_, ?_, ?_⟩
  · cases h1 : endsWithStr s ".mjs" with
    | true =>
        have h2 := excl_false h1 e12
        have h3 := excl_false h1 e13
        have h4 := excl_false h1 e14
        have h5 := excl_false h1 e15
        simp [List.filter_cons, h1, h2, h3, h4, h5]
    | false =>
        cases h2 : endsWithStr s ".cjs" with
        | true =>
            have h3 := excl_false h2 e23
            have h4 := excl_false h2 e24
            have h5 := excl_false h2 e25
            simp [List.filter_cons, h1, h2, h3, h4, h5]
        | false =>
            cases h3 : endsWithStr s ".d.ts" with
            | true =>
                have h4 := excl_false h3 e34
                have h5 := excl_false h3 e35
                simp [List.filter_cons, h1, h2, h3, h4, h5]
            | false =>
                cases h4 : endsWithStr s ".d.mts" with
                | true =>
                    have h5 := excl_false h4 e45
                    simp [List.filter_cons, h1, h2, h3, h4, h5]
                | false =>
                    cases h5 : endsWithStr s ".d.cts" with
                    | true => simp [List.filter_cons, h1, h2, h3, h4, h5]
                    | false => simp [List.filter_cons, h1, h2, h3, h4, h5]
  · intro hmem
    have hs : endsWithStr s ".mjs" = true := (List.mem_filter.mp hmem).2
    exact ⟨notmem ".cjs" (excl_false hs e12), notmem ".d.ts" (excl_false hs e13),
      notmem ".d.mts" (excl_false hs e14), notmem ".d.cts" (excl_false hs e15)⟩
  · intro hmem
    have hs : endsWithStr s ".cjs" = true := (List.mem_filter.mp hmem).2
    exact ⟨notmem ".d.ts" (excl_false hs e23), notmem ".d.mts" (excl_false hs e24),
      notmem ".d.cts" (excl_false hs e25)⟩
  · intro hmem
    have hs : endsWithStr s ".d.ts" = true := (List.mem_filter.mp hmem).2
    exact ⟨notmem ".d.mts" (excl_false hs e34), notmem ".d.cts" (excl_false hs e35)⟩
  · intro hmem
    have hs : endsWithStr s ".d.mts" = true := (List.mem_filter.mp hmem).2
    refine ⟨notmem ".d.cts" (excl_false hs e45), ?_, ?_⟩
    · intro hmem2
      have hs2 : endsWithStr s ".mjs" = true := (List.mem_filter.mp hmem2).2
      exact e14 ⟨hs2, hs⟩
    · intro hmem2
      have hs2 : endsWithStr s ".d.ts" = true := (List.mem_filter.mp hmem2).2
      exact e34 ⟨hs2, hs⟩

/-- C10 witness: exclusivity applied to the concrete filename `x.d.mts`. -/
theorem claim10_witness :
    (([".mjs", ".cjs", ".d.ts", ".d.mts", ".d.cts"].filter
        fun ext => endsWithStr "x.d.mts" ext).length ≤ 1)
    ∧ ("x.d.mts" ∈ dmtsFiles ["x.d.mts"]
        → "x.d.mts" ∉ dctsFiles ["x.d.mts"] ∧ "x.d.mts" ∉ mjsFiles ["x.d.mts"]
          ∧ "x.d.mts" ∉ dtsFiles ["x.d.mts"]) :=
  ⟨(claim10_suffix_exclusive "x.d.mts" ["x.d.mts"]).1,
    (claim10_suffix_exclusive "x.d.mts" ["x.d.mts"]).2.2.2.2⟩

/-- A non-empty list has `isEmpty = false`. -/
theorem isEmpty_false_of_ne_nil {α : Type} {l : List α} (h : l ≠ []) : l.isEmpty = false := by
  cases l with
  | nil => exact absurd rfl h
  | cons a t => rfl

/-- Without declaration files all three declaration buckets are empty. -/
theorem hasDecl_false_buckets (files : List String) (h : hasDeclFiles files = false) :
    dtsFiles files = [] ∧ dmtsFiles files = [] ∧ dctsFiles files = [] := by
  unfold hasDeclFiles at h
  simp only [Bool.or_eq_false_iff, Bool.not_eq_false', List.isEmpty_iff] at h
  exact ⟨h.1.1, h.1.2, h.2⟩

/-- Top-level `types` of the literal builder is the first present declaration
bucket in the order `.d.ts`, `.d.mts`, `.d.cts`. -/
theorem gec_top_types (files : List String) (outDir pre : String)
    (hdecl : hasDeclFiles files = true) :
    topTypesOf (generateExportConditions files outDir pre)
      = ((dtsFiles files ++ dmtsFiles files ++ dctsFiles files).head?).map
          (filePath outDir pre) := by
  unfold generateExportConditions
  rcases hdts : dtsFiles files with _ | ⟨d0, dr⟩
  · rcases hdmts : dmtsFiles files with _ | ⟨m0, mr⟩
    · rcases hdcts : dctsFiles files with _ | ⟨c0, cr⟩
      · rw [hasDeclFiles, hdts, hdmts, hdcts] at hdecl
        simp at hdecl
      · simp [hdts, hdmts, hdcts, hdecl, topTypesOf]
    · simp [hdts, hdmts, hdecl, topTypesOf]
  · simp [hdts, hdecl, topTypesOf]

/-- Top-level `types` of the wildcard builder is the first present declaration
bucket's wildcard pattern in the order `.d.ts`, `.d.mts`, `.d.cts`. -/
theorem gfp_top_types (files : List String) (outDir folderName : String)
    (hdecl : hasDeclFiles files = true) :
    (generateFolderPatternExportConditions files outDir folderName).types
      = (((dtsFiles files).map (fun _ => "/*.d.ts")
          ++ (dmtsFiles files).map (fun _ => "/*.d.mts")
          ++ (dctsFiles files).map (fun _ => "/*.d.cts")).head?).map
          (folderPath outDir folderName) := by
  unfold generateFolderPatternExportConditions
  rcases hdts : dtsFiles files with _ | ⟨d0, dr⟩
  · rcases hdmts : dmtsFiles files with _ | ⟨m0, mr⟩
    · rcases hdcts : dctsFiles files with _ | ⟨c0, cr⟩
      · rw [hasDeclFiles, hdts, hdmts, hdcts] at hdecl
        simp at hdecl
      · simp [hdts, hdmts, hdcts, hdecl]
    · simp [hdts, hdmts, hdecl]
  · simp [hdts, hdecl]

/-- With an `.mjs` file present, the literal builder's `import.types` is the
first present of `.d.mts` then `.d.ts` (omitted when neither exists; in the
degenerate bare-string case no declaration exists either, so both sides are
absent). -/
theorem gec_imp_types (files : List String) (outDir pre : String)
    (hmjs : mjsFiles files ≠ []) :
    impTypesOf (generateExportConditions files outDir pre)
      = ((dmtsFiles files ++ dtsFiles files).head?).map (filePath outDir pre) := by
  have hmjsE : (mjsFiles files).isEmpty = false := isEmpty_false_of_ne_nil hmjs
  unfold generateExportConditions
  cases hdecl : hasDeclFiles files with
  | false =>
      obtain ⟨h1, h2, h3⟩ := hasDecl_false_buckets files hdecl
      simp only [h1, h2, h3]
      split
      · simp [impTypesOf]
      · simp [hmjsE, impTypesOf, impTypesOfCond]
  | true =>
      rcases hdmts : dmtsFiles files with _ | ⟨m0, mr⟩
      · rcases hdts : dtsFiles files with _ | ⟨d0, dr⟩
        · simp [hdecl, hdmts, hdts, hmjsE, impTypesOf, impTypesOfCond]
        · simp [hdecl, hdmts, hdts, hmjsE, impTypesOf, impTypesOfCond]
      · simp [hdecl, hdmts, hmjsE, impTypesOf, impTypesOfCond]

/-- With an `.mjs` file present, the wildcard builder's `import.types` is the
first present wildcard of `.d.mts` then `.d.ts` (omitted when neither exists). -/
theorem gfp_imp_types (files : List String) (outDir folderName : String)
    (hmjs : mjsFiles files ≠ []) :
    impTypesOfCond (generateFolderPatternExportConditions files outDir folderName)
      = (((dmtsFiles files).map (fun _ => "/*.d.mts")
          ++ (dtsFiles files).map (fun _ => "/*.d.ts")).head?).map
          (folderPath outDir folderName) := by
  have hmjsE : (mjsFiles files).isEmpty = false := isEmpty_false_of_ne_nil hmjs
  unfold generateFolderPatternExportConditions
  rcases hdmts : dmtsFiles files with _ | ⟨m0, mr⟩
  · rcases hdts : dtsFiles files with _ | ⟨d0, dr⟩
    · simp [hdmts, hdts, hmjsE, impTypesOfCond]
    · simp [hdmts, hdts, hmjsE, impTypesOfCond]
  · simp [hdmts, hmjsE, impTypesOfCond]

/-- With a `.cjs` file present, the literal builder's `require.types` is the
first present of `.d.cts` then `.d.ts` (omitted when neither exists). -/
theorem gec_req_types (files : List String) (outDir pre : String)
    (hcjs : cjsFiles files ≠ []) :
    reqTypesOf (generateExportConditions files outDir pre)
      = ((dctsFiles files ++ dtsFiles files).head?).map (filePath outDir pre) := by
  have hcjsE : (cjsFiles files).isEmpty = false := isEmpty_false_of_ne_nil hcjs
  unfold generateExportConditions
  cases hdecl : hasDeclFiles files with
  | false =>
      obtain ⟨h1, h2, h3⟩ := hasDecl_false_buckets files hdecl
      simp only [h1, h2, h3]
      split
      · simp [reqTypesOf]
      · simp [hcjsE, reqTypesOf, reqTypesOfCond]
  | true =>
      rcases hdcts : dctsFiles files with _ | ⟨c0, cr⟩
      · rcases hdts : dtsFiles files with _ | ⟨d0, dr⟩
        · simp [hdecl, hdcts, hdts, hcjsE, reqTypesOf, reqTypesOfCond]
        · simp [hdecl, hdcts, hdts, hcjsE, reqTypesOf, reqTypesOfCond]
      · simp [hdecl, hdcts, hcjsE, reqTypesOf, reqTypesOfCond]

/-- With a `.cjs` file present, the wildcard builder's `require.types` is the
first present wildcard of `.d.cts` then `.d.ts` (omitted when neither exists). -/
theorem gfp_req_types (files : List String) (outDir folderName : String)
    (hcjs : cjsFiles files ≠ []) :
    reqTypesOfCond (generateFolderPatternExportConditions files outDir folderName)
      = (((dctsFiles files).map (fun _ => "/*.d.cts")
          ++ (dtsFiles files).map (fun _ => "/*.d.ts")).head?).map
          (folderPath outDir folderName) := by
  have hcjsE : (cjsFiles files).isEmpty = false := isEmpty_false_of_ne_nil hcjs
  unfold generateFolderPatternExportConditions
  rcases hdcts : dctsFiles files with _ | ⟨c0, cr⟩
  · rcases hdts : dtsFiles files with _ | ⟨d0, dr⟩
    · simp [hdcts, hdts, hcjsE, reqTypesOfCond]
    · simp [hdcts, hdts, hcjsE, reqTypesOfCond]
  · simp [hdcts, hcjsE, reqTypesOfCond]

/-- C3: For every group, when any declaration file is present the top-level
`types` key is the first present of `.d.ts`, `.d.mts`, `.d.cts` in that fixed
order; when an `.mjs` file is present the `import` block's `types` sub-key is
the first present of `.d.mts` then `.d.ts` (omitted if neither exists); when a
`.cjs` file is present the `require` block's `types` sub-key is the first
present of `.d.cts` then `.d.ts` (omitted if neither exists) — for the literal
builder and the wildcard builder alike. -/
theorem claim3_types_priority (files : List String) (outDir pre folderName : String) :
    (hasDeclFiles files = true →
      topTypesOf (generateExportConditions files outDir pre)
          = ((dtsFiles files ++ dmtsFiles files ++ dctsFiles files).head?).map
              (filePath outDir pre)
        ∧ (generateFolderPatternExportConditions files outDir folderName).types
          = (((dtsFiles files).map (fun _ => "/*.d.ts")
              ++ (dmtsFiles files).map (fun _ => "/*.d.mts")
              ++ (dctsFiles files).map (fun _ => "/*.d.cts")).head?).map
              (folderPath outDir folderName))
    ∧ (mjsFiles files ≠ [] →
      impTypesOf (generateExportConditions files outDir pre)
          = ((dmtsFiles files ++ dtsFiles files).head?).map (filePath outDir pre)
        ∧ impTypesOfCond (generateFolderPatternExportConditions files outDir folderName)
          = (((dmtsFiles files).map (fun _ => "/*.d.mts")
              ++ (dtsFiles files).map (fun _ => "/*.d.ts")).head?).map
              (folderPath outDir folderName))
    ∧ (cjsFiles files ≠ [] →
      reqTypesOf (generateExportConditions files outDir pre)
          = ((dctsFiles files ++ dtsFiles files).head?).map (filePath outDir pre)
        ∧ reqTypesOfCond (generateFolderPatternExportConditions files outDir folderName)
          = (((dctsFiles files).map (fun _ => "/*.d.cts")
              ++ (dtsFiles files).map (fun _ => "/*.d.ts")).head?).map
              (folderPath outDir folderName)) :=
  ⟨fun h => ⟨gec_top_types files outDir pre h, gfp_top_types files outDir folderName h⟩,
   fun h => ⟨gec_imp_types files outDir pre h, gfp_imp_types files outDir folderName h⟩,
   fun h => ⟨gec_req_types files outDir pre h, gfp_req_types files outDir folderName h⟩⟩

/-- C3 witness: the declaration-priority rules applied to a concrete group
holding all five file kinds. -/
theorem claim3_witness :
    (topTypesOf (generateExportConditions
        ["index.mjs", "index.cjs", "index.d.ts", "index.d.mts", "index.d.cts"] "dist" "")
      = ((dtsFiles ["index.mjs", "index.cjs", "index.d.ts", "index.d.mts", "index.d.cts"]
          ++ dmtsFiles ["index.mjs", "index.cjs", "index.d.ts", "index.d.mts", "index.d.cts"]
          ++ dctsFiles ["index.mjs", "index.cjs", "index.d.ts", "index.d.mts", "index.d.cts"]).head?).map
          (filePath "dist" ""))
    ∧ (impTypesOf (generateExportConditions
        ["index.mjs", "index.cjs", "index.d.ts", "index.d.mts", "index.d.cts"] "dist" "")
      = ((dmtsFiles ["index.mjs", "index.cjs", "index.d.ts", "index.d.mts", "index.d.cts"]
          ++ dtsFiles ["index.mjs", "index.cjs", "index.d.ts", "index.d.mts", "index.d.cts"]).head?).map
          (filePath "dist" ""))
    ∧ (reqTypesOf (generateExportConditions
        ["index.mjs", "index.cjs", "index.d.ts", "index.d.mts", "index.d.cts"] "dist" "")
      = ((dctsFiles ["index.mjs", "index.cjs", "index.d.ts", "index.d.mts", "index.d.cts"]
          ++ dtsFiles ["index.mjs", "index.cjs", "index.d.ts", "index.d.mts", "index.d.cts"]).head?).map
          (filePath "dist" "")) :=
  ⟨((claim3_types_priority
      ["index.mjs", "index.cjs", "index.d.ts", "index.d.mts", "index.d.cts"]
      "dist" "" "plugins").1 (by decide)).1,
   ((claim3_types_priority
      ["index.mjs", "index.cjs", "index.d.ts", "index.d.mts", "index.d.cts"]
      "dist" "" "plugins").2.1 (by decide)).1,
   ((claim3_types_priority
      ["index.mjs", "index.cjs", "index.d.ts", "index.d.mts", "index.d.cts"]
      "dist" "" "plugins").2.2 (by decide)).1⟩

-- Sanity checks against the repository's own test expectations.
example : inferExportType "import" [] "" = .esm := by decide
example : inferExportType "require" [] "" = .cjs := by decide
example : inferExportType "node" [] "" = .esm := by decide
example : inferExportType "node" ["require"] "" = .cjs := by decide
example : inferExportType "node" ["unknown", "require"] "" = .cjs := by decide
example : inferExportType "require" ["import"] "" = .cjs := by decide
example :
    extractExportFilenames (some (.str "test")) [] = [⟨"test", .esm⟩] := by decide
example :
    extractExportFilenames
      (some (.map (.cons "require" (.str "test") .nil))) [] = [⟨"test", .cjs⟩] := by decide
example :
    extractExportFilenames
      (some (.map (.cons "require"
        (.map (.cons "node" (.str "test")
          (.cons "other" (.map (.cons "import" (.str "this")
            (.cons "require" (.str "that") .nil))) .nil))) .nil))) []
    = [⟨"test", .cjs⟩, ⟨"this", .esm⟩, ⟨"that", .cjs⟩] := by decide
example :
    generatePackageExports [⟨"index.mjs", false⟩] "dist" (.flag false) = none := by decide
example :
    generatePackageExports [⟨"index.mjs", false⟩] "dist" (.folders [])
      = some [(".", .str "./dist/index.mjs")] := by rfl
example :
    generatePackageExports
      [⟨"plugins/vite.mjs", false⟩, ⟨"plugins/vite.cjs", false⟩, ⟨"plugins/vite.d.mts", false⟩,
        ⟨"plugins/vite.d.cts", false⟩, ⟨"plugins/webpack.mjs", false⟩,
        ⟨"plugins/webpack.cjs", false⟩, ⟨"plugins/webpack.d.mts", false⟩,
        ⟨"plugins/webpack.d.cts", false⟩]
      "dist" (.flag true)
    = some [("./plugins/*", .cond
        { types := some "./dist/plugins/*.d.mts"
          imp := some { types := some "./dist/plugins/*.d.mts"
                        default := some "./dist/plugins/*.mjs" }
          req := some { types := some "./dist/plugins/*.d.cts"
                        default := some "./dist/plugins/*.cjs" } })] := by rfl
example :
    generatePackageExports
      [⟨"index.mjs", false⟩, ⟨"index.cjs", false⟩, ⟨"index.d.ts", false⟩,
        ⟨"plugins/vite.mjs", false⟩, ⟨"plugins/vite.cjs", false⟩,
        ⟨"plugins/vite.d.mts", false⟩, ⟨"plugins/vite.d.cts", false⟩]
      "dist" (.flag true)
    = some [(".", .cond
        { types := some "./dist/index.d.ts"
          imp := some { types := some "./dist/index.d.ts", default := some "./dist/index.mjs" }
          req := some { types := some "./dist/index.d.ts", default := some "./dist/index.cjs" } }),
      ("./plugins/*", .cond
        { types := some "./dist/plugins/*.d.mts"
          imp := some { types := some "./dist/plugins/*.d.mts"
                        default := some "./dist/plugins/*.mjs" }
          req := some { types := some "./dist/plugins/*.d.cts"
                        default := some "./dist/plugins/*.cjs" } })] := by rfl
